import Mathlib

/-!
Verification of the powerfulseal policy-execution core against its
natural-language specification.

The development shallowly embeds three source files:
* `powerfulseal/execute/remote_executor.py` (`RemoteExecutor.execute`),
* `powerfulseal/node/inventory.py` (`read_inventory_file_to_dict`),
* `powerfulseal/policy/policy_runner.py` (`PolicyRunner.get_schema`,
  `PolicyRunner.validate_file`, `PolicyRunner.run`).

Python dictionaries are embedded as insertion-ordered association lists
(`List (key × value)`), assignment to an existing key replacing the value in
place, as Python dicts do.  Python strings handled character-wise are embedded
as `List Char` so that all operations compute by structural recursion.
-/

namespace PowerfulSeal

/-- Lookup in an insertion-ordered association list (Python `d[k]` /
`k in d`), first (and by construction only) occurrence of the key wins. -/
def dictLookup {κ α : Type} [BEq κ] (k : κ) : List (κ × α) → Option α
  | [] => none
  | (k', v) :: rest => if k' == k then some v else dictLookup k rest

/-- Python `d[k] = v`: replace the value in place if the key is present,
otherwise append the new binding at the end (dicts are insertion-ordered). -/
def dictInsert {κ α : Type} [BEq κ] (k : κ) (v : α) : List (κ × α) → List (κ × α)
  | [] => [(k, v)]
  | (k', v') :: rest =>
    if k' == k then (k, v) :: rest else (k', v') :: dictInsert k v rest

/-- Python `d[k].append(x)` for a dict of lists: `none` models the `KeyError`
raised when the key is absent. -/
def dictAppendAt {κ α : Type} [BEq κ] (k : κ) (x : α) :
    List (κ × List α) → Option (List (κ × List α))
  | [] => none
  | (k', xs) :: rest =>
    if k' == k then some ((k', xs ++ [x]) :: rest)
    else (dictAppendAt k x rest).map ((k', xs) :: ·)

theorem dictLookup_dictInsert_self {κ α : Type} [BEq κ] [LawfulBEq κ]
    (k : κ) (v : α) (m : List (κ × α)) :
    dictLookup k (dictInsert k v m) = some v := by
  induction m with
  | nil => simp [dictLookup, dictInsert]
  | cons kv rest ih =>
    obtain ⟨k', v'⟩ := kv
    by_cases h : k' == k
    · simp [dictLookup, dictInsert, h]
    · simp only [dictInsert, h, Bool.false_eq_true, if_false]
      simp [dictLookup, h, ih]

theorem dictLookup_dictInsert_ne {κ α : Type} [BEq κ] [LawfulBEq κ]
    {k k' : κ} (h : k' ≠ k) (v : α) (m : List (κ × α)) :
    dictLookup k (dictInsert k' v m) = dictLookup k m := by
  induction m with
  | nil => simp [dictLookup, dictInsert, h]
  | cons kv rest ih =>
    obtain ⟨k'', v''⟩ := kv
    by_cases h2 : k'' == k'
    · have hk : k'' = k' := by simpa using h2
      subst hk
      simp [dictLookup, dictInsert, h2, h]
    · simp only [dictInsert, h2, Bool.false_eq_true, if_false]
      by_cases h3 : k'' == k
      · simp [dictLookup, h3]
      · simp [dictLookup, h3, ih]

theorem dictInsert_length_of_lookup_none {κ α : Type} [BEq κ]
    {k : κ} (v : α) {m : List (κ × α)} (h : dictLookup k m = none) :
    (dictInsert k v m).length = m.length + 1 := by
  induction m with
  | nil => simp [dictInsert]
  | cons kv rest ih =>
    obtain ⟨k', v'⟩ := kv
    by_cases h2 : k' == k
    · simp [dictLookup, h2] at h
    · simp only [dictLookup, h2, Bool.false_eq_true, if_false] at h
      simp [dictInsert, h2, ih h]

theorem dictAppendAt_of_lookup_some {κ α : Type} [BEq κ]
    {k : κ} {m : List (κ × List α)} {xs : List α}
    (h : dictLookup k m = some xs) (x : α) :
    ∃ m', dictAppendAt k x m = some m' ∧ dictLookup k m' = some (xs ++ [x]) := by
  induction m with
  | nil => simp [dictLookup] at h
  | cons kv rest ih =>
    obtain ⟨k', ys⟩ := kv
    by_cases h2 : k' == k
    · simp only [dictLookup, h2, if_true, Option.some.injEq] at h
      subst h
      exact ⟨(k', ys ++ [x]) :: rest, by simp [dictAppendAt, h2], by simp [dictLookup, h2]⟩
    · simp only [dictLookup, h2, Bool.false_eq_true, if_false] at h
      obtain ⟨m', hm', hl⟩ := ih h
      refine ⟨(k', ys) :: m', ?_, ?_⟩
      · simp [dictAppendAt, h2, hm']
      · simp [dictLookup, h2, hl]

/-! ## Remote command executor (`powerfulseal/execute/remote_executor.py`)

`RemoteExecutor.execute` iterates over the target nodes; for each node it
opens an SSH session (password if `node.sshpass` is set, otherwise the
executor's private key), runs `["sh", "-c", cmd]`, and stores either the
remote result or, if anything in the `try` block raised, a
`{"ret_code": 1, "error": str(e)}` record, keyed by `node.ip`.

The network is abstracted as an oracle mapping a node and the full command to
either a result (`spur.run` returning) or an error string (the exception the
`except Exception` clause catches). -/

/-- A node as consumed by `RemoteExecutor.execute` (fields actually read:
`ip`, `sshuser`, `sshpass`, `name`). -/
structure Node where
  name : String
  ip : String
  sshuser : String
  sshpass : Option String
deriving DecidableEq

/-- The value returned by `spur` for a completed remote command. -/
structure SpurResult where
  return_code : Int
  output : String
  stderr_output : String
deriving DecidableEq

/-- One entry of the result dict of `RemoteExecutor.execute`: either
`{"ret_code": .., "stdout": .., "stderr": ..}` or `{"ret_code": .., "error": ..}`. -/
inductive ExecOutcome where
  | success (ret_code : Int) (stdout stderr : String)
  | failure (ret_code : Int) (error : String)
deriving DecidableEq

/-- The SSH oracle: connect to a node and run a command, returning either the
spur result or the message of the raised exception. -/
def SshOracle : Type := Node → List String → Except String SpurResult

/-- The `for node in nodes` loop body of `RemoteExecutor.execute`: each
iteration wraps the session in `try/except Exception` and writes one entry
into `results`, keyed by `node.ip`. -/
def executeLoop (oracle : SshOracle) (cmd_full : List String) :
    List Node → List (String × ExecOutcome) → List (String × ExecOutcome)
  | [], results => results
  | node :: rest, results =>
    let results' :=
      match oracle node cmd_full with
      | .ok output =>
        dictInsert node.ip
          (.success output.return_code output.output output.stderr_output) results
      | .error e => dictInsert node.ip (.failure 1 e) results
    executeLoop oracle cmd_full rest results'

/-- The constructor state of `RemoteExecutor` (`self.nodes = nodes or []`,
`self.user`, host-key policy, private-key path). -/
structure RemoteExecutor where
  nodes : List Node
  user : String
  ssh_allow_missing_host_keys : Bool
  ssh_path_to_private_key : Option String

/-- `RemoteExecutor.PREFIX = ["sh", "-c"]`. -/
def RemoteExecutor.PREFIX : List String := ["sh", "-c"]

/-- `RemoteExecutor.execute(cmd, nodes)`.  The first statement of the source,
`nodes = nodes or self.nodes`, makes an empty (falsy) argument fall back to
the nodes supplied at construction time. -/
def RemoteExecutor.execute (ex : RemoteExecutor) (oracle : SshOracle)
    (cmd : String) (nodesArg : List Node) : List (String × ExecOutcome) :=
  let nodes := if nodesArg.isEmpty then ex.nodes else nodesArg
  executeLoop oracle (RemoteExecutor.PREFIX ++ [cmd]) nodes []

/-- Specification-side description of the single-target result: a target
whose session raises maps to return code 1 with the error description, a
succeeding target maps to the actual remote return code, stdout and stderr. -/
def perTargetOutcome (oracle : SshOracle) (cmd_full : List String)
    (n : Node) : ExecOutcome :=
  match oracle n cmd_full with
  | .ok output => .success output.return_code output.output output.stderr_output
  | .error e => .failure 1 e

theorem executeLoop_lookup_preserved (oracle : SshOracle) (cmd_full : List String) :
    ∀ (nodes : List Node) (acc : List (String × ExecOutcome)) (k : String),
      (∀ n ∈ nodes, n.ip ≠ k) →
      dictLookup k (executeLoop oracle cmd_full nodes acc) = dictLookup k acc := by
  intro nodes
  induction nodes with
  | nil => intro acc k _; rfl
  | cons node rest ih =>
    intro acc k h
    have hne : node.ip ≠ k := h node (by simp)
    have hrest : ∀ n ∈ rest, n.ip ≠ k := fun n hn => h n (by simp [hn])
    show dictLookup k (executeLoop oracle cmd_full rest _) = _
    cases hor : oracle node cmd_full <;>
      simp only [executeLoop, hor] <;>
      rw [ih _ k hrest, dictLookup_dictInsert_ne hne]

theorem executeLoop_length (oracle : SshOracle) (cmd_full : List String) :
    ∀ (nodes : List Node) (acc : List (String × ExecOutcome)),
      (nodes.map Node.ip).Nodup →
      (∀ n ∈ nodes, dictLookup n.ip acc = none) →
      (executeLoop oracle cmd_full nodes acc).length = acc.length + nodes.length := by
  intro nodes
  induction nodes with
  | nil => intro acc _ _; simp [executeLoop]
  | cons node rest ih =>
    intro acc hnd hfresh
    have hnd' : (rest.map Node.ip).Nodup := (List.nodup_cons.mp hnd).2
    have hhd : node.ip ∉ rest.map Node.ip := (List.nodup_cons.mp hnd).1
    have hacc : dictLookup node.ip acc = none := hfresh node (by simp)
    have step :
        ∀ (out : ExecOutcome),
          (executeLoop oracle cmd_full rest (dictInsert node.ip out acc)).length =
            acc.length + (rest.length + 1) := by
      intro out
      have hfresh' : ∀ n ∈ rest, dictLookup n.ip (dictInsert node.ip out acc) = none := by
        intro n hn
        have : n.ip ≠ node.ip := by
          intro hEq
          exact hhd (hEq ▸ List.mem_map_of_mem Node.ip hn)
        rw [dictLookup_dictInsert_ne (Ne.symm this), hfresh n (by simp [hn])]
      rw [ih _ hnd' hfresh', dictInsert_length_of_lookup_none _ hacc]
      omega
    cases hor : oracle node cmd_full <;>
      simp only [executeLoop, hor, List.length_cons] <;> exact step _

theorem executeLoop_lookup_mem (oracle : SshOracle) (cmd_full : List String) :
    ∀ (nodes : List Node) (acc : List (String × ExecOutcome)),
      (nodes.map Node.ip).Nodup →
      ∀ n ∈ nodes,
        dictLookup n.ip (executeLoop oracle cmd_full nodes acc) =
          some (perTargetOutcome oracle cmd_full n) := by
  intro nodes
  induction nodes with
  | nil => intro acc _ n hn; simp at hn
  | cons node rest ih =>
    intro acc hnd n hn
    have hnd' : (rest.map Node.ip).Nodup := (List.nodup_cons.mp hnd).2
    have hhd : node.ip ∉ rest.map Node.ip := (List.nodup_cons.mp hnd).1
    rcases List.mem_cons.mp hn with rfl | hn'
    · have hrest : ∀ m ∈ rest, m.ip ≠ n.ip := by
        intro m hm hEq
        exact hhd (hEq ▸ List.mem_map_of_mem Node.ip hm)
      have key :
          ∀ (out : ExecOutcome),
            dictLookup n.ip (executeLoop oracle cmd_full rest (dictInsert n.ip out acc)) =
              some out := by
        intro out
        rw [executeLoop_lookup_preserved oracle cmd_full rest _ _ hrest,
          dictLookup_dictInsert_self]
      cases hor : oracle n cmd_full <;>
        simp only [executeLoop, hor] <;>
        rw [key] <;> simp [perTargetOutcome, hor]
    · cases hor : oracle node cmd_full <;>
        simp only [executeLoop, hor] <;>
        exact ih _ hnd' n hn'

/-! ## Inventory file parser (`powerfulseal/node/inventory.py`)

`read_inventory_file_to_dict` reads the file line by line: a (rstripped) line
that starts with `[` and ends with `]` opens a section whose entry in
`_groups` is (re)set to `[]`; an empty line is skipped; any other line is
split on single spaces, the first piece becomes the record's `addr`, and each
further piece must be a `key=value` pair.  The record is appended to
`_groups[section_name]`, where `section_name` is initially `""`.

A `configparser` object is also created from the file but its contents are
never used, so it is not modelled.  Python strings are embedded as
`List Char`; a file is the list of its lines. -/

/-- The per-line `data` dict: `addr` plus `key=value` attributes. -/
abbrev Record := List (List Char × List Char)

/-- The `_groups` dict: section name to list of records. -/
abbrev Groups := List (List Char × List Record)

/-- Python `line.rstrip()`: drop trailing whitespace. -/
def pyRstrip (l : List Char) : List Char :=
  (l.reverse.dropWhile Char.isWhitespace).reverse

/-- Python `line.lstrip("[")`: drop every leading `[`. -/
def pyLstripBracket (l : List Char) : List Char := l.dropWhile (· == '[')

/-- Python `line.rstrip("]")`: drop every trailing `]`. -/
def pyRstripBracket (l : List Char) : List Char :=
  (l.reverse.dropWhile (· == ']')).reverse

/-- Python `s.startswith(c)` for a one-character prefix. -/
def startsWithChar (c : Char) : List Char → Bool
  | [] => false
  | d :: _ => d == c

/-- `line.startswith("[") and line.endswith("]")`. -/
def isHeaderLine (l : List Char) : Bool :=
  startsWithChar '[' l && startsWithChar ']' l.reverse

/-- Python `s.split(sep)` for a one-character separator: keeps empty pieces,
and the result of splitting an empty string is `[""]`. -/
def pySplitOn (sep : Char) : List Char → List (List Char)
  | [] => [[]]
  | c :: rest =>
    match pySplitOn sep rest with
    | [] => [[c]]
    | grp :: grps => if c == sep then [] :: grp :: grps else (c :: grp) :: grps

theorem pySplitOn_ne_nil (sep : Char) (l : List Char) : pySplitOn sep l ≠ [] := by
  cases l with
  | nil => simp [pySplitOn]
  | cons c rest =>
    simp only [pySplitOn]
    cases pySplitOn sep rest with
    | nil => simp
    | cons grp grps =>
      by_cases h : c == sep <;> simp [h]

/-- The exception `read_inventory_file_to_dict` can raise: `KeyError` from
`_groups[section_name]` before any header, or `ValueError` from unpacking
`piece.split("=")` into `k, v`. -/
inductive InvError where
  | keyError (sectionName : List Char)
  | valueError (piece : List Char)
deriving DecidableEq

/-- The `for piece in pieces[1:]` loop: skip a literal `" "` piece (dead code,
pieces of a single-space split never equal `" "`), otherwise unpack
`k, v = piece.split("=")` — any piece count other than two raises. -/
def parseAttrs : Record → List (List Char) → Except InvError Record
  | data, [] => .ok data
  | data, piece :: rest =>
    if piece == [' '] then parseAttrs data rest
    else
      match pySplitOn '=' piece with
      | [k, v] => parseAttrs (dictInsert k v data) rest
      | _ => .error (.valueError piece)

/-- Processing of one line of the inventory file: state is
(`_groups`, `section_name`). -/
def stepLine (st : Groups × List Char) (line : List Char) :
    Except InvError (Groups × List Char) :=
  let l := pyRstrip line
  if isHeaderLine l then
    let name := pyRstripBracket (pyLstripBracket l)
    .ok (dictInsert name [] st.1, name)
  else if l.isEmpty then .ok st
  else
    match pySplitOn ' ' l with
    | [] => .ok st
    | addr :: restPieces =>
      match parseAttrs [("addr".toList, addr)] restPieces with
      | .error e => .error e
      | .ok data =>
        match dictAppendAt st.2 data st.1 with
        | none => .error (.keyError st.2)
        | some g => .ok (g, st.2)

/-- The `for line in lines` loop of `read_inventory_file_to_dict`. -/
def runLines : List (List Char) → (Groups × List Char) →
    Except InvError (Groups × List Char)
  | [], st => .ok st
  | line :: rest, st =>
    match stepLine st line with
    | .error e => .error e
    | .ok st' => runLines rest st'

/-- `read_inventory_file_to_dict`, on the file's list of lines: runs the line
loop from the empty dict and `section_name = ""` and returns `_groups`. -/
def read_inventory_file_to_dict (lines : List (List Char)) :
    Except InvError Groups :=
  match runLines lines ([], []) with
  | .error e => .error e
  | .ok st => .ok st.1

/-- Does every piece after the first of this (rstripped, non-empty) record
line contain exactly one `=`? -/
def tokensOk (l : List Char) : Bool :=
  match pySplitOn ' ' l with
  | [] => true
  | _ :: rest => rest.all fun p => (pySplitOn '=' p).length == 2

/-- The precondition of the totality claim: every record line appears after
some `[section]` header, and every piece after a record line's first piece
has exactly one `=`. -/
def linesWellFormed : List (List Char) → Bool → Bool
  | [], _ => true
  | line :: rest, seenHeader =>
    let l := pyRstrip line
    if isHeaderLine l then linesWellFormed rest true
    else if l.isEmpty then linesWellFormed rest seenHeader
    else seenHeader && tokensOk l && linesWellFormed rest seenHeader

/-- A line that neither opens a section nor is blank, and whose attribute
pieces are well-formed. -/
def plainRecordLine (line : List Char) : Bool :=
  !isHeaderLine (pyRstrip line) && !(pyRstrip line).isEmpty &&
    tokensOk (pyRstrip line)

/-- The record a well-formed record line produces. -/
def recordOfLine (line : List Char) : Record :=
  match pySplitOn ' ' (pyRstrip line) with
  | [] => []
  | addr :: restPieces =>
    match parseAttrs [("addr".toList, addr)] restPieces with
    | .ok data => data
    | .error _ => []

theorem parseAttrs_total :
    ∀ (ps : List (List Char)) (data : Record),
      (ps.all fun p => (pySplitOn '=' p).length == 2) = true →
      ∃ r, parseAttrs data ps = .ok r := by
  intro ps
  induction ps with
  | nil => intro data _; exact ⟨data, rfl⟩
  | cons p rest ih =>
    intro data h
    rw [List.all_cons, Bool.and_eq_true] at h
    obtain ⟨hp, hrest⟩ := h
    by_cases hsp : p == [' ']
    · simpa [parseAttrs, hsp] using ih data hrest
    · have hlen : (pySplitOn '=' p).length = 2 := by simpa using hp
      obtain ⟨k, v, hkv⟩ := List.length_eq_two.mp hlen
      simpa [parseAttrs, hsp, hkv] using ih (dictInsert k v data) hrest

theorem runLines_total :
    ∀ (lines : List (List Char)) (g : Groups) (sec : List Char) (seen : Bool),
      linesWellFormed lines seen = true →
      (seen = true → (dictLookup sec g).isSome = true) →
      ∃ st', runLines lines (g, sec) = .ok st' := by
  intro lines
  induction lines with
  | nil => intro g sec seen _ _; exact ⟨(g, sec), rfl⟩
  | cons line rest ih =>
    intro g sec seen hwf hinv
    by_cases hhdr : isHeaderLine (pyRstrip line)
    · rw [linesWellFormed, if_pos hhdr] at hwf
      have hstep : stepLine (g, sec) line =
          .ok (dictInsert (pyRstripBracket (pyLstripBracket (pyRstrip line))) []
            g, pyRstripBracket (pyLstripBracket (pyRstrip line))) := by
        simp [stepLine, hhdr]
      obtain ⟨st', hst'⟩ :=
        ih (dictInsert (pyRstripBracket (pyLstripBracket (pyRstrip line))) [] g)
          (pyRstripBracket (pyLstripBracket (pyRstrip line))) true hwf
          (fun _ => by rw [dictLookup_dictInsert_self]; rfl)
      exact ⟨st', by rw [runLines, hstep]; exact hst'⟩
    · by_cases hemp : (pyRstrip line).isEmpty
      · rw [linesWellFormed, if_neg hhdr, if_pos hemp] at hwf
        obtain ⟨st', hst'⟩ := ih g sec seen hwf hinv
        exact ⟨st', by rw [runLines]; simp only [stepLine, hhdr,
          Bool.false_eq_true, if_false, hemp, if_true]; exact hst'⟩
      · rw [linesWellFormed, if_neg hhdr, if_neg hemp, Bool.and_eq_true,
          Bool.and_eq_true] at hwf
        obtain ⟨⟨hseen, htok⟩, hrest⟩ := hwf
        match hsplit : pySplitOn ' ' (pyRstrip line) with
        | [] => exact absurd hsplit (pySplitOn_ne_nil _ _)
        | addr :: restPieces =>
          simp only [tokensOk, hsplit] at htok
          obtain ⟨data, hdata⟩ := parseAttrs_total restPieces [("addr".toList, addr)] htok
          obtain ⟨xs, hxs⟩ := Option.isSome_iff_exists.mp (hinv hseen)
          obtain ⟨g', hg', hlook'⟩ := dictAppendAt_of_lookup_some hxs data
          obtain ⟨st', hst'⟩ := ih g' sec seen hrest
            (fun _ => by rw [hlook']; rfl)
          refine ⟨st', ?_⟩
          rw [runLines]
          simp only [stepLine, hhdr, Bool.false_eq_true, if_false, hemp,
            hsplit, hdata, hg']
          exact hst'

theorem runLines_append :
    ∀ (xs ys : List (List Char)) (st st' : Groups × List Char),
      runLines xs st = .ok st' →
      runLines (xs ++ ys) st = runLines ys st' := by
  intro xs
  induction xs with
  | nil => intro ys st st' h; cases h; rfl
  | cons line rest ih =>
    intro ys st st' h
    rw [runLines] at h
    rw [List.cons_append, runLines]
    cases hstep : stepLine st line with
    | error e => rw [hstep] at h; cases h
    | ok st₁ => rw [hstep] at h; exact ih ys st₁ st' h

theorem runLines_records :
    ∀ (recs : List (List Char)) (g : Groups) (sec : List Char) (xs : List Record),
      recs.all plainRecordLine = true →
      dictLookup sec g = some xs →
      ∃ g', runLines recs (g, sec) = .ok (g', sec) ∧
        dictLookup sec g' = some (xs ++ recs.map recordOfLine) := by
  intro recs
  induction recs with
  | nil => intro g sec xs _ hl; exact ⟨g, rfl, by simpa using hl⟩
  | cons r rest ih =>
    intro g sec xs hall hl
    rw [List.all_cons, Bool.and_eq_true] at hall
    obtain ⟨hr, hrest⟩ := hall
    rw [plainRecordLine, Bool.and_eq_true, Bool.and_eq_true] at hr
    obtain ⟨⟨hhdr, hemp⟩, htok⟩ := hr
    rw [Bool.not_eq_true'] at hhdr hemp
    match hsplit : pySplitOn ' ' (pyRstrip r) with
    | [] => exact absurd hsplit (pySplitOn_ne_nil _ _)
    | addr :: restPieces =>
      simp only [tokensOk, hsplit] at htok
      obtain ⟨data, hdata⟩ := parseAttrs_total restPieces [("addr".toList, addr)] htok
      obtain ⟨g₁, hg₁, hlook₁⟩ := dictAppendAt_of_lookup_some hl data
      obtain ⟨g', hrun', hlook'⟩ := ih g₁ sec (xs ++ [data]) hrest hlook₁
      refine ⟨g', ?_, ?_⟩
      · rw [runLines]
        simp only [stepLine, hhdr, Bool.false_eq_true, if_false, hemp,
          hsplit, hdata, hg₁]
        exact hrun'
      · rw [hlook']
        have hrec : recordOfLine r = data := by
          simp only [recordOfLine, hsplit, hdata]
        simp [hrec, List.append_assoc]

/-! ## Policy schema and validator (`powerfulseal/policy/policy_runner.py`)

`PolicyRunner.get_schema` returns a JSON-Schema document as data;
`PolicyRunner.validate_file` loads the YAML policy and runs
`jsonschema.validate(policy, schema)`.  The schema is embedded as one boolean
checker per entry of the schema's `definitions` table, mirroring its
keywords: `"type"`, `"properties"`, `"required"`,
`"additionalProperties": false`, `"enum"`, `"items"`, and `"oneOf"`
(exactly one alternative validates).  A `"$ref"` makes the sibling keywords
of the referencing schema object irrelevant here (the referenced definitions
re-state the same `"type"`), so a reference is embedded as the referenced
checker.  `validate` raising a `ValidationError` corresponds to a checker
returning `false`. -/

/-- YAML/JSON documents, objects as insertion-ordered field lists. -/
inductive Json where
  | null
  | bool (b : Bool)
  | num (n : Int)
  | str (s : String)
  | arr (items : List Json)
  | obj (fields : List (String × Json))

/-- `{"type": "number"}`. -/
def isNumber : Json → Bool
  | .num _ => true
  | _ => false

/-- `{"type": "boolean"}`. -/
def isBoolean : Json → Bool
  | .bool _ => true
  | _ => false

/-- `{"type": "string"}`. -/
def isStringVal : Json → Bool
  | .str _ => true
  | _ => false

/-- `{"type": "object"}`. -/
def isObjectVal : Json → Bool
  | .obj _ => true
  | _ => false

/-- `{"type": "string", "enum": [...]}`. -/
def strEnum (vals : List String) : Json → Bool
  | .str s => vals.contains s
  | _ => false

/-- `{"type": "array", "items": ...}`. -/
def isArrayOf (c : Json → Bool) : Json → Bool
  | .arr xs => xs.all c
  | _ => false

/-- A `"properties"` entry: constrains the key only when it is present. -/
def propOk (fields : List (String × Json)) (k : String) (c : Json → Bool) : Bool :=
  match dictLookup k fields with
  | none => true
  | some v => c v

/-- A schema object with `"type": "object"`,
`"additionalProperties": false` (keys outside `allowed` are rejected),
`"required"`, and `"properties"`. -/
def objCheck (allowed required : List String)
    (props : List (String × (Json → Bool))) : Json → Bool
  | .obj fields =>
    fields.all (fun kv => allowed.contains kv.1) &&
    (required.all fun k => (dictLookup k fields).isSome) &&
    (props.all fun p => propOk fields p.1 p.2)
  | _ => false

/-- `"oneOf"`: exactly one alternative validates. -/
def oneOf (checks : List (Json → Bool)) (j : Json) : Bool :=
  (checks.countP fun c => c j) == 1

/-- `definitions.config`. -/
def checkConfig : Json → Bool :=
  objCheck ["minSecondsBetweenRuns", "maxSecondsBetweenRuns"]
    ["minSecondsBetweenRuns"]
    [("minSecondsBetweenRuns", isNumber), ("maxSecondsBetweenRuns", isNumber)]

/-- `definitions.time`. -/
def checkTime : Json → Bool :=
  objCheck ["hour", "minute", "second"] ["hour", "minute", "second"]
    [("hour", isNumber), ("minute", isNumber), ("second", isNumber)]

/-- The weekday `enum` of `definitions.filterDayTime.dayTime.onlyDays`. -/
def weekdays : List String :=
  ["monday", "tuesday", "wednesday", "thursday", "friday", "saturday", "sunday"]

/-- The inner `dayTime` object of `definitions.filterDayTime`. -/
def checkDayTimeObj : Json → Bool :=
  objCheck ["onlyDays", "startTime", "endTime"]
    ["onlyDays", "startTime", "endTime"]
    [("onlyDays", isArrayOf (strEnum weekdays)),
     ("startTime", checkTime), ("endTime", checkTime)]

/-- `definitions.filterDayTime`. -/
def checkFilterDayTime : Json → Bool :=
  objCheck ["dayTime"] ["dayTime"] [("dayTime", checkDayTimeObj)]

/-- The inner `randomSample` object of `definitions.filterRandomSample`
(no `required`: both `size` and `ratio` are optional). -/
def checkRandomSampleObj : Json → Bool :=
  objCheck ["size", "ratio"] [] [("size", isNumber), ("ratio", isNumber)]

/-- `definitions.filterRandomSample`. -/
def checkFilterRandomSample : Json → Bool :=
  objCheck ["randomSample"] ["randomSample"]
    [("randomSample", checkRandomSampleObj)]

/-- The inner `probability` object of `definitions.filterProbability`. -/
def checkProbabilityObj : Json → Bool :=
  objCheck ["probabilityPassAll"] ["probabilityPassAll"]
    [("probabilityPassAll", isNumber)]

/-- `definitions.filterProbability`. -/
def checkFilterProbability : Json → Bool :=
  objCheck ["probability"] ["probability"]
    [("probability", checkProbabilityObj)]

/-- The inner `property` object of `definitions.filterPropertyNode`. -/
def checkPropertyNodeObj : Json → Bool :=
  objCheck ["name", "value"] ["name", "value"]
    [("name", strEnum ["name", "ip", "group", "az", "state"]),
     ("value", isStringVal)]

/-- `definitions.filterPropertyNode`. -/
def checkFilterPropertyNode : Json → Bool :=
  objCheck ["property"] ["property"] [("property", checkPropertyNodeObj)]

/-- The `start` value of `definitions.actionStartNode`:
`"type": ["object", "null"]` with `"additionalProperties": false` and no
`"properties"`, i.e. `null` or an empty object. -/
def checkStartValue : Json → Bool
  | .null => true
  | .obj fields => fields.isEmpty
  | _ => false

/-- `definitions.actionStartNode`. -/
def checkActionStartNode : Json → Bool :=
  objCheck ["start"] ["start"] [("start", checkStartValue)]

/-- The inner `stop` object of `definitions.actionStopNode`. -/
def checkStopObj : Json → Bool :=
  objCheck ["force"] [] [("force", isBoolean)]

/-- `definitions.actionStopNode`. -/
def checkActionStopNode : Json → Bool :=
  objCheck ["stop"] ["stop"] [("stop", checkStopObj)]

/-- The inner `execute` object of `definitions.actionExecuteNode`. -/
def checkExecuteObj : Json → Bool :=
  objCheck ["cmd"] ["cmd"] [("cmd", isStringVal)]

/-- `definitions.actionExecuteNode`. -/
def checkActionExecuteNode : Json → Bool :=
  objCheck ["execute"] ["execute"] [("execute", checkExecuteObj)]

/-- The inner `wait` object of `definitions.actionWait`. -/
def checkWaitObj : Json → Bool :=
  objCheck ["seconds"] ["seconds"] [("seconds", isNumber)]

/-- `definitions.actionWait`. -/
def checkActionWait : Json → Bool :=
  objCheck ["wait"] ["wait"] [("wait", checkWaitObj)]

/-- `definitions.nodeScenario`. -/
def checkNodeScenario : Json → Bool :=
  objCheck ["name", "description", "match", "filters", "actions"]
    ["name", "match", "filters", "actions"]
    [("name", isStringVal), ("description", isStringVal),
     ("match", isArrayOf (oneOf [checkFilterPropertyNode])),
     ("filters", isArrayOf fun j => isObjectVal j &&
        oneOf [checkFilterPropertyNode, checkFilterDayTime,
          checkFilterRandomSample, checkFilterProbability] j),
     ("actions", isArrayOf fun j => isObjectVal j &&
        oneOf [checkActionStartNode, checkActionStopNode,
          checkActionExecuteNode, checkActionWait] j)]

/-- The inner `namespace` object of `definitions.matchPodNamespace`. -/
def checkNamespaceObj : Json → Bool :=
  objCheck ["name"] ["name"] [("name", isStringVal)]

/-- `definitions.matchPodNamespace`. -/
def checkMatchPodNamespace : Json → Bool :=
  objCheck ["namespace"] ["namespace"] [("namespace", checkNamespaceObj)]

/-- The inner `deployment` object of
`definitions.matchPodDeploymentAndNamespace`. -/
def checkDeploymentObj : Json → Bool :=
  objCheck ["name", "namespace"] ["name", "namespace"]
    [("name", isStringVal), ("namespace", isStringVal)]

/-- `definitions.matchPodDeploymentAndNamespace`. -/
def checkMatchPodDeploymentAndNamespace : Json → Bool :=
  objCheck ["deployment"] ["deployment"]
    [("deployment", checkDeploymentObj)]

/-- The inner `labels` object of `definitions.matchPodLabelsAndNamespace`. -/
def checkLabelsObj : Json → Bool :=
  objCheck ["selector", "namespace"] ["selector", "namespace"]
    [("selector", isStringVal), ("namespace", isStringVal)]

/-- `definitions.matchPodLabelsAndNamespace`. -/
def checkMatchPodLabelsAndNamespace : Json → Bool :=
  objCheck ["labels"] ["labels"] [("labels", checkLabelsObj)]

/-- The inner `property` object of `definitions.filterPropertyPod`. -/
def checkPropertyPodObj : Json → Bool :=
  objCheck ["name", "value"] ["name", "value"]
    [("name", strEnum ["name", "state"]), ("value", isStringVal)]

/-- `definitions.filterPropertyPod`. -/
def checkFilterPropertyPod : Json → Bool :=
  objCheck ["property"] ["property"] [("property", checkPropertyPodObj)]

/-- The inner `kill` object of `definitions.actionKillPod`
(no `required`: both `probability` and `force` are optional). -/
def checkKillObj : Json → Bool :=
  objCheck ["probability", "force"] []
    [("probability", isNumber), ("force", isBoolean)]

/-- `definitions.actionKillPod`. -/
def checkActionKillPod : Json → Bool :=
  objCheck ["kill"] ["kill"] [("kill", checkKillObj)]

/-- `definitions.podScenario`. -/
def checkPodScenario : Json → Bool :=
  objCheck ["name", "description", "match", "filters", "actions"]
    ["name", "match", "filters", "actions"]
    [("name", isStringVal), ("description", isStringVal),
     ("match", isArrayOf (oneOf [checkMatchPodNamespace,
        checkMatchPodDeploymentAndNamespace, checkMatchPodLabelsAndNamespace])),
     ("filters", isArrayOf fun j => isObjectVal j &&
        oneOf [checkFilterPropertyPod, checkFilterDayTime,
          checkFilterRandomSample, checkFilterProbability] j),
     ("actions", isArrayOf fun j => isObjectVal j &&
        oneOf [checkActionKillPod, checkActionWait] j)]

/-- The `"properties"` keys of the top-level schema object. -/
def topLevelProperties : List String := ["config", "nodeScenarios", "podScenarios"]

/-- The top-level schema object, as `jsonschema.validate` applies it in
`PolicyRunner.validate_file`: `"type": "object"` with the three properties.
The top level of `get_schema` sets neither `"additionalProperties"` nor
`"required"`, so keys outside `topLevelProperties` are unconstrained. -/
def validatePolicyDoc : Json → Bool
  | .obj fields =>
    propOk fields "config" checkConfig &&
    propOk fields "nodeScenarios" (isArrayOf checkNodeScenario) &&
    propOk fields "podScenarios" (isArrayOf checkPodScenario)
  | _ => false

theorem objCheck_keys {allowed required : List String}
    {props : List (String × (Json → Bool))} {fields : List (String × Json)}
    (h : objCheck allowed required props (.obj fields) = true) :
    ∀ kv ∈ fields, kv.1 ∈ allowed := by
  intro kv hm
  simp only [objCheck, Bool.and_eq_true, List.all_eq_true] at h
  simpa using h.1.1 kv hm

theorem objCheck_required {allowed required : List String}
    {props : List (String × (Json → Bool))} {fields : List (String × Json)}
    (h : objCheck allowed required props (.obj fields) = true) :
    ∀ k ∈ required, (dictLookup k fields).isSome = true := by
  intro k hk
  simp only [objCheck, Bool.and_eq_true, List.all_eq_true] at h
  exact h.1.2 k hk

/-! ## Policy scheduler (`PolicyRunner.run`)

`PolicyRunner.run` reads `minSecondsBetweenRuns` (default 0) and
`maxSecondsBetweenRuns` (default 300) from `policy["config"]`, builds one
`NodeScenario` per entry of `policy["nodeScenarios"]` and one `PodScenario`
per entry of `policy["podScenarios"]`, and then loops
`while loops is None or loops > 0`, each iteration executing every node
scenario, then every pod scenario, then
`sleep_time = int(random.uniform(wait_min, wait_max))`, `time.sleep`,
`inventory.sync()`, and finally `loops -= 1` when `loops` is bounded;
it returns `(node_scenarios, pod_scenarios)`.

Side effects are recorded as an event trace; the values produced by
`random.uniform` on successive rounds are an oracle `draws : ℕ → ℚ`; the
unbounded loop is driven by explicit fuel, `none` meaning "still running
after that many loop tests". -/

/-- The parts of the (already validated) policy document `run` reads. -/
structure PolicyModel where
  configMinSecondsBetweenRuns : Option ℚ
  configMaxSecondsBetweenRuns : Option ℚ
  nodeScenarios : List String
  podScenarios : List String

/-- `wait_min = config.get("minSecondsBetweenRuns", 0)`. -/
def waitMin (p : PolicyModel) : ℚ := p.configMinSecondsBetweenRuns.getD 0

/-- `wait_max = config.get("maxSecondsBetweenRuns", 300)`. -/
def waitMax (p : PolicyModel) : ℚ := p.configMaxSecondsBetweenRuns.getD 300

/-- Python `int(x)`: truncation toward zero. -/
def pyInt (q : ℚ) : ℤ := if 0 ≤ q then ⌊q⌋ else ⌈q⌉

/-- Observable steps of one scheduler loop iteration. -/
inductive Event where
  | execNode (name : String)
  | execPod (name : String)
  | sleep (seconds : ℤ)
  | sync
deriving DecidableEq

/-- `while loops is None or loops > 0`. -/
def loopCondition : Option ℤ → Bool
  | none => true
  | some n => decide (0 < n)

/-- The `while` loop of `PolicyRunner.run`.  One fuel unit is one evaluation
of the loop condition; each executed iteration appends, in source order, the
node-scenario executions, the pod-scenario executions, the sleep (for
`int(random.uniform(...))` seconds) and the inventory sync, then decrements
`loops` when it is bounded.  Exhausted fuel (`none`) means the loop is still
running. -/
def runFuel (p : PolicyModel) (draws : ℕ → ℚ) :
    ℕ → ℕ → Option ℤ → List Event →
    Option (List Event × List String × List String)
  | 0, _, _, _ => none
  | fuel + 1, k, loops, trace =>
    if loopCondition loops then
      runFuel p draws fuel (k + 1) (loops.map (· - 1))
        (trace ++ p.nodeScenarios.map Event.execNode
          ++ p.podScenarios.map Event.execPod
          ++ [Event.sleep (pyInt (draws k)), Event.sync])
    else
      some (trace, p.nodeScenarios, p.podScenarios)

/-- `PolicyRunner.run(policy, ..., loops)`: run the loop from round 0 with an
empty trace. -/
def PolicyRunner_run (p : PolicyModel) (draws : ℕ → ℚ) (loops : Option ℤ)
    (fuel : ℕ) : Option (List Event × List String × List String) :=
  runFuel p draws fuel 0 loops []

/-- Modelled from the spec: the order §4.5 prescribes for one round — every
node scenario engine in declared order, then every pod scenario engine in
declared order, then the randomized sleep, then the inventory refresh. -/
def specRoundEvents (p : PolicyModel) (draw : ℚ) : List Event :=
  p.nodeScenarios.map Event.execNode ++ p.podScenarios.map Event.execPod ++
    [Event.sleep (pyInt draw), Event.sync]

/-- Modelled from the spec: `n` rounds in sequence, round `i` using the
`i`-th uniform draw. -/
def specTrace (p : PolicyModel) (draws : ℕ → ℚ) (n : ℕ) : List Event :=
  (List.range n).flatMap fun i => specRoundEvents p (draws i)

/-- Is this event the inventory refresh? (used to count rounds). -/
def isSyncEvent : Event → Bool
  | .sync => true
  | _ => false

/-- The slept durations of a trace, in order. -/
def sleepSeconds (trace : List Event) : List ℤ :=
  trace.filterMap fun e =>
    match e with
    | .sleep s => some s
    | _ => none

theorem runFuel_bounded (p : PolicyModel) (draws : ℕ → ℚ) :
    ∀ (N k : ℕ) (trace : List Event),
      runFuel p draws (N + 1) k (some (N : ℤ)) trace =
        some (trace ++ (List.range N).flatMap
            (fun i => specRoundEvents p (draws (k + i))),
          p.nodeScenarios, p.podScenarios) := by
  intro N
  induction N with
  | zero =>
    intro k trace
    simp [runFuel, loopCondition]
  | succ N ih =>
    intro k trace
    have hc : loopCondition (some ((N + 1 : ℕ) : ℤ)) = true := by
      simp [loopCondition]
    have hdec : ((N + 1 : ℕ) : ℤ) - 1 = ((N : ℕ) : ℤ) := by push_cast; ring
    rw [runFuel, hc, if_pos rfl, Option.map_some', hdec, ih (k + 1)]
    have harg : ∀ i, k + 1 + i = k + Nat.succ i := by intro i; omega
    simp only [List.range_succ_eq_map, List.flatMap_cons, List.flatMap_map,
      specRoundEvents, List.append_assoc, List.cons_append, List.nil_append,
      Nat.add_zero, harg]

theorem runFuel_unbounded (p : PolicyModel) (draws : ℕ → ℚ) :
    ∀ (fuel k : ℕ) (trace : List Event),
      runFuel p draws fuel k none trace = none := by
  intro fuel
  induction fuel with
  | zero => intro k trace; rfl
  | succ fuel ih =>
    intro k trace
    rw [runFuel]
    simp only [loopCondition, if_pos rfl, Option.map_none']
    exact ih _ _

theorem countP_isSync_specRoundEvents (p : PolicyModel) (d : ℚ) :
    (specRoundEvents p d).countP isSyncEvent = 1 := by
  simp only [specRoundEvents, List.countP_append]
  have h1 : (p.nodeScenarios.map Event.execNode).countP isSyncEvent = 0 := by
    rw [List.countP_eq_zero]
    intro a ha
    obtain ⟨x, _, rfl⟩ := List.mem_map.mp ha
    simp [isSyncEvent]
  have h2 : (p.podScenarios.map Event.execPod).countP isSyncEvent = 0 := by
    rw [List.countP_eq_zero]
    intro a ha
    obtain ⟨x, _, rfl⟩ := List.mem_map.mp ha
    simp [isSyncEvent]
  rw [h1, h2]
  simp [List.countP_cons, isSyncEvent]

theorem countP_isSync_specTrace (p : PolicyModel) (draws : ℕ → ℚ) (n : ℕ) :
    (specTrace p draws n).countP isSyncEvent = n := by
  rw [specTrace]
  induction n with
  | zero => rfl
  | succ n ih =>
    rw [List.range_succ, List.flatMap_append, List.countP_append, ih]
    simp [countP_isSync_specRoundEvents]

theorem sleepSeconds_specRoundEvents (p : PolicyModel) (d : ℚ) :
    sleepSeconds (specRoundEvents p d) = [pyInt d] := by
  simp only [sleepSeconds, specRoundEvents, List.filterMap_append,
    List.filterMap_map]
  rw [List.filterMap_eq_nil_iff.mpr (by intro x hx; rfl),
    List.filterMap_eq_nil_iff.mpr (by intro x hx; rfl)]
  rfl

theorem sleepSeconds_specTrace (p : PolicyModel) (draws : ℕ → ℚ) (n : ℕ) :
    sleepSeconds (specTrace p draws n) = (List.range n).map fun i => pyInt (draws i) := by
  rw [specTrace, sleepSeconds]
  induction n with
  | zero => rfl
  | succ n ih =>
    rw [List.range_succ, List.flatMap_append, List.filterMap_append, ih,
      List.map_append]
    congr 1
    simpa [sleepSeconds] using sleepSeconds_specRoundEvents p (draws n)

/-! ## Claim theorems -/

/-- A target node reachable at `10.0.0.1` with key-based auth. -/
def sampleNodeA : Node := ⟨"node-a", "10.0.0.1", "root", none⟩

/-- A target node reachable at `10.0.0.2` with password auth. -/
def sampleNodeB : Node := ⟨"node-b", "10.0.0.2", "root", some "pw"⟩

/-- An SSH oracle under which `10.0.0.1` refuses the connection and every
other host runs the command successfully, printing `hi`. -/
def sampleOracle : SshOracle := fun n _ =>
  if n.ip == "10.0.0.1" then .error "connection refused"
  else .ok ⟨0, "hi\n", ""⟩

/-- An SSH oracle under which every command succeeds silently. -/
def okOracle : SshOracle := fun _ _ => .ok ⟨0, "", ""⟩

/-- An executor constructed with default (empty) nodes. -/
def sampleExecutor : RemoteExecutor := ⟨[], "cloud-user", false, none⟩

/-- C1, counterexample: the result dict of `RemoteExecutor.execute` is keyed
by `node.ip`, so two targets sharing an IP yield one entry, not two — the
claimed "exactly N entries, one per target" fails at N = 2. -/
theorem C1_counterexample :
    (RemoteExecutor.execute sampleExecutor okOracle "true"
      [⟨"node-a", "10.0.0.1", "root", none⟩,
       ⟨"node-b", "10.0.0.1", "root", none⟩]).length = 1 ∧
    ([⟨"node-a", "10.0.0.1", "root", none⟩,
      ⟨"node-b", "10.0.0.1", "root", none⟩] : List Node).length = 2 := by
  exact ⟨rfl, rfl⟩

/-- C1, amended: for every command and every nonempty sequence of N target
nodes with pairwise-distinct IPs, `RemoteExecutor.execute` returns a mapping
with exactly N entries, one per target: a target whose connection or
execution raises maps to return code 1 with the error description, and a
succeeding target maps to the actual remote return code, stdout and stderr
(`perTargetOutcome`).  The per-target `try/except` makes the function total:
no per-target failure escapes or stops the loop over the remaining
targets. -/
theorem C1_execute_total_mapping (ex : RemoteExecutor) (oracle : SshOracle)
    (cmd : String) (targets : List Node) (hne : targets ≠ [])
    (hnodup : (targets.map Node.ip).Nodup) :
    (ex.execute oracle cmd targets).length = targets.length ∧
    ∀ n ∈ targets,
      dictLookup n.ip (ex.execute oracle cmd targets) =
        some (perTargetOutcome oracle (RemoteExecutor.PREFIX ++ [cmd]) n) := by
  have hempty : targets.isEmpty = false := by
    rw [List.isEmpty_eq_false]; exact hne
  constructor
  · rw [RemoteExecutor.execute]
    simp only [hempty, Bool.false_eq_true, if_false]
    rw [executeLoop_length oracle _ targets [] hnodup (fun n _ => rfl)]
    simp
  · intro n hn
    rw [RemoteExecutor.execute]
    simp only [hempty, Bool.false_eq_true, if_false]
    exact executeLoop_lookup_mem oracle _ targets [] hnodup n hn

/-- C1, witness: two targets with distinct IPs, the first failing to connect
and the second succeeding. -/
theorem C1_witness :
    (RemoteExecutor.execute sampleExecutor sampleOracle "echo hi"
      [sampleNodeA, sampleNodeB]).length = 2 ∧
    dictLookup "10.0.0.1" (RemoteExecutor.execute sampleExecutor sampleOracle
      "echo hi" [sampleNodeA, sampleNodeB]) =
      some (.failure 1 "connection refused") ∧
    dictLookup "10.0.0.2" (RemoteExecutor.execute sampleExecutor sampleOracle
      "echo hi" [sampleNodeA, sampleNodeB]) =
      some (.success 0 "hi\n" "") := by
  have h := C1_execute_total_mapping sampleExecutor sampleOracle "echo hi"
    [sampleNodeA, sampleNodeB] (by decide) (by decide)
  refine ⟨h.1, ?_, ?_⟩
  · exact (h.2 sampleNodeA (by simp)).trans (by decide)
  · exact (h.2 sampleNodeB (by simp)).trans (by decide)

/-- C3, counterexample: `nodes = nodes or self.nodes` makes an empty target
sequence fall back to the nodes given at construction, so an executor built
with one node connects to it and returns a one-entry mapping — not the
empty mapping the claim promises "regardless of how the executor was
constructed". -/
theorem C3_counterexample :
    RemoteExecutor.execute ⟨[sampleNodeA], "cloud-user", false, none⟩
      okOracle "uptime" [] = [("10.0.0.1", .success 0 "" "")] := by
  exact rfl

/-- C3, amended: calling `execute` with an empty target sequence falls back
to the constructor-supplied node list (`nodes = nodes or self.nodes`); it is
a no-op returning the empty mapping only when that list is also empty. -/
theorem C3_empty_targets_fallback (ex : RemoteExecutor) (oracle : SshOracle)
    (cmd : String) :
    RemoteExecutor.execute ex oracle cmd [] =
      executeLoop oracle (RemoteExecutor.PREFIX ++ [cmd]) ex.nodes [] ∧
    (ex.nodes = [] → RemoteExecutor.execute ex oracle cmd [] = []) := by
  refine ⟨rfl, fun h => ?_⟩
  rw [RemoteExecutor.execute]
  simp [h, executeLoop]

/-- C3, witness: an executor constructed with no nodes, called with no
targets, returns the empty mapping. -/
theorem C3_witness :
    RemoteExecutor.execute sampleExecutor okOracle "uptime" [] = [] := by
  exact (C3_empty_targets_fallback sampleExecutor okOracle "uptime").2 rfl

/-- C2, counterexample: the top level of `get_schema` sets `"type"` and
`"properties"` but not `"additionalProperties"`, so a document consisting of
a single key enumerated nowhere in the schema still validates — refuting
"closed-world at every nesting level, including the top level". -/
theorem C2_counterexample :
    validatePolicyDoc (.obj [("unknownKey", .null)]) = true ∧
    "unknownKey" ∉ topLevelProperties := by
  exact ⟨rfl, by decide⟩

/-- C2, amended: schema validation is closed-world at every nesting level
below the top level of the document: every object described by the schema's
`definitions` table carries `"additionalProperties": false`, so a document
object accepted by any of those checkers holds only keys enumerated by the
corresponding `"properties"`.  (Unknown keys at the top level itself are
accepted, per the counterexample.) -/
theorem C2_closed_world_below_top :
    (∀ fields, checkConfig (.obj fields) = true → ∀ kv ∈ fields,
      kv.1 ∈ ["minSecondsBetweenRuns", "maxSecondsBetweenRuns"]) ∧
    (∀ fields, checkNodeScenario (.obj fields) = true → ∀ kv ∈ fields,
      kv.1 ∈ ["name", "description", "match", "filters", "actions"]) ∧
    (∀ fields, checkPodScenario (.obj fields) = true → ∀ kv ∈ fields,
      kv.1 ∈ ["name", "description", "match", "filters", "actions"]) ∧
    (∀ fields, checkTime (.obj fields) = true → ∀ kv ∈ fields,
      kv.1 ∈ ["hour", "minute", "second"]) ∧
    (∀ fields, checkDayTimeObj (.obj fields) = true → ∀ kv ∈ fields,
      kv.1 ∈ ["onlyDays", "startTime", "endTime"]) ∧
    (∀ fields, checkFilterDayTime (.obj fields) = true → ∀ kv ∈ fields,
      kv.1 ∈ ["dayTime"]) ∧
    (∀ fields, checkRandomSampleObj (.obj fields) = true → ∀ kv ∈ fields,
      kv.1 ∈ ["size", "ratio"]) ∧
    (∀ fields, checkFilterRandomSample (.obj fields) = true → ∀ kv ∈ fields,
      kv.1 ∈ ["randomSample"]) ∧
    (∀ fields, checkProbabilityObj (.obj fields) = true → ∀ kv ∈ fields,
      kv.1 ∈ ["probabilityPassAll"]) ∧
    (∀ fields, checkFilterProbability (.obj fields) = true → ∀ kv ∈ fields,
      kv.1 ∈ ["probability"]) ∧
    (∀ fields, checkPropertyNodeObj (.obj fields) = true → ∀ kv ∈ fields,
      kv.1 ∈ ["name", "value"]) ∧
    (∀ fields, checkFilterPropertyNode (.obj fields) = true → ∀ kv ∈ fields,
      kv.1 ∈ ["property"]) ∧
    (∀ fields, checkPropertyPodObj (.obj fields) = true → ∀ kv ∈ fields,
      kv.1 ∈ ["name", "value"]) ∧
    (∀ fields, checkFilterPropertyPod (.obj fields) = true → ∀ kv ∈ fields,
      kv.1 ∈ ["property"]) ∧
    (∀ fields, checkStartValue (.obj fields) = true → fields = []) ∧
    (∀ fields, checkActionStartNode (.obj fields) = true → ∀ kv ∈ fields,
      kv.1 ∈ ["start"]) ∧
    (∀ fields, checkStopObj (.obj fields) = true → ∀ kv ∈ fields,
      kv.1 ∈ ["force"]) ∧
    (∀ fields, checkActionStopNode (.obj fields) = true → ∀ kv ∈ fields,
      kv.1 ∈ ["stop"]) ∧
    (∀ fields, checkExecuteObj (.obj fields) = true → ∀ kv ∈ fields,
      kv.1 ∈ ["cmd"]) ∧
    (∀ fields, checkActionExecuteNode (.obj fields) = true → ∀ kv ∈ fields,
      kv.1 ∈ ["execute"]) ∧
    (∀ fields, checkWaitObj (.obj fields) = true → ∀ kv ∈ fields,
      kv.1 ∈ ["seconds"]) ∧
    (∀ fields, checkActionWait (.obj fields) = true → ∀ kv ∈ fields,
      kv.1 ∈ ["wait"]) ∧
    (∀ fields, checkKillObj (.obj fields) = true → ∀ kv ∈ fields,
      kv.1 ∈ ["probability", "force"]) ∧
    (∀ fields, checkActionKillPod (.obj fields) = true → ∀ kv ∈ fields,
      kv.1 ∈ ["kill"]) ∧
    (∀ fields, checkNamespaceObj (.obj fields) = true → ∀ kv ∈ fields,
      kv.1 ∈ ["name"]) ∧
    (∀ fields, checkMatchPodNamespace (.obj fields) = true → ∀ kv ∈ fields,
      kv.1 ∈ ["namespace"]) ∧
    (∀ fields, checkDeploymentObj (.obj fields) = true → ∀ kv ∈ fields,
      kv.1 ∈ ["name", "namespace"]) ∧
    (∀ fields, checkMatchPodDeploymentAndNamespace (.obj fields) = true →
      ∀ kv ∈ fields, kv.1 ∈ ["deployment"]) ∧
    (∀ fields, checkLabelsObj (.obj fields) = true → ∀ kv ∈ fields,
      kv.1 ∈ ["selector", "namespace"]) ∧
    (∀ fields, checkMatchPodLabelsAndNamespace (.obj fields) = true →
      ∀ kv ∈ fields, kv.1 ∈ ["labels"]) := by
  refine ⟨fun _ h => objCheck_keys h, fun _ h => objCheck_keys h,
    fun _ h => objCheck_keys h, fun _ h => objCheck_keys h,
    fun _ h => objCheck_keys h, fun _ h => objCheck_keys h,
    fun _ h => objCheck_keys h, fun _ h => objCheck_keys h,
    fun _ h => objCheck_keys h, fun _ h => objCheck_keys h,
    fun _ h => objCheck_keys h, fun _ h => objCheck_keys h,
    fun _ h => objCheck_keys h, fun _ h => objCheck_keys h,
    fun fields h => ?_, fun _ h => objCheck_keys h,
    fun _ h => objCheck_keys h, fun _ h => objCheck_keys h,
    fun _ h => objCheck_keys h, fun _ h => objCheck_keys h,
    fun _ h => objCheck_keys h, fun _ h => objCheck_keys h,
    fun _ h => objCheck_keys h, fun _ h => objCheck_keys h,
    fun _ h => objCheck_keys h, fun _ h => objCheck_keys h,
    fun _ h => objCheck_keys h, fun _ h => objCheck_keys h,
    fun _ h => objCheck_keys h, fun _ h => objCheck_keys h⟩
  simpa [checkStartValue] using h

/-- C2, witness: a well-formed `config` object, run through the amended
theorem's first component. -/
theorem C2_witness :
    "minSecondsBetweenRuns" ∈ ["minSecondsBetweenRuns", "maxSecondsBetweenRuns"] := by
  exact C2_closed_world_below_top.1 [("minSecondsBetweenRuns", Json.num 5)]
    (by decide) ("minSecondsBetweenRuns", Json.num 5) (by simp)

/-- C7: a scenario whose `filters` and `actions` are empty arrays validates
(first two components), every scenario object accepted by the node- or
pod-scenario checker contains `name`, `match`, `filters` and `actions`
(components three and four, so a scenario missing any of the four is
rejected), and a document accepted by the full validator has every entry of
its `nodeScenarios`/`podScenarios` arrays accepted by those checkers
(components five and six). -/
theorem C7_scenario_required_fields :
    checkNodeScenario (.obj [("name", .str "s"), ("match", .arr []),
      ("filters", .arr []), ("actions", .arr [])]) = true ∧
    checkPodScenario (.obj [("name", .str "s"), ("match", .arr []),
      ("filters", .arr []), ("actions", .arr [])]) = true ∧
    (∀ fields, checkNodeScenario (.obj fields) = true →
      (dictLookup "name" fields).isSome = true ∧
      (dictLookup "match" fields).isSome = true ∧
      (dictLookup "filters" fields).isSome = true ∧
      (dictLookup "actions" fields).isSome = true) ∧
    (∀ fields, checkPodScenario (.obj fields) = true →
      (dictLookup "name" fields).isSome = true ∧
      (dictLookup "match" fields).isSome = true ∧
      (dictLookup "filters" fields).isSome = true ∧
      (dictLookup "actions" fields).isSome = true) ∧
    (∀ fields items, validatePolicyDoc (.obj fields) = true →
      dictLookup "nodeScenarios" fields = some (.arr items) →
      ∀ j ∈ items, checkNodeScenario j = true) ∧
    (∀ fields items, validatePolicyDoc (.obj fields) = true →
      dictLookup "podScenarios" fields = some (.arr items) →
      ∀ j ∈ items, checkPodScenario j = true) := by
  refine ⟨by decide, by decide, ?_, ?_, ?_, ?_⟩
  · exact fun fields h =>
      ⟨objCheck_required h "name" (by decide),
       objCheck_required h "match" (by decide),
       objCheck_required h "filters" (by decide),
       objCheck_required h "actions" (by decide)⟩
  · exact fun fields h =>
      ⟨objCheck_required h "name" (by decide),
       objCheck_required h "match" (by decide),
       objCheck_required h "filters" (by decide),
       objCheck_required h "actions" (by decide)⟩
  · intro fields items h hlook j hj
    have hand : ((propOk fields "config" checkConfig &&
        propOk fields "nodeScenarios" (isArrayOf checkNodeScenario)) &&
        propOk fields "podScenarios" (isArrayOf checkPodScenario)) = true := h
    rw [Bool.and_eq_true, Bool.and_eq_true] at hand
    have h2 := hand.1.2
    rw [propOk, hlook] at h2
    simp only [isArrayOf, List.all_eq_true] at h2
    exact h2 j hj
  · intro fields items h hlook j hj
    have hand : ((propOk fields "config" checkConfig &&
        propOk fields "nodeScenarios" (isArrayOf checkNodeScenario)) &&
        propOk fields "podScenarios" (isArrayOf checkPodScenario)) = true := h
    rw [Bool.and_eq_true] at hand
    have h3 := hand.2
    rw [propOk, hlook] at h3
    simp only [isArrayOf, List.all_eq_true] at h3
    exact h3 j hj

/-- C7, witness: the required-field component applied to the concrete
empty-filters scenario. -/
theorem C7_witness :
    (dictLookup "filters" [("name", Json.str "s"), ("match", Json.arr []),
      ("filters", Json.arr []), ("actions", Json.arr [])]).isSome = true := by
  exact (C7_scenario_required_fields.2.2.1
    [("name", Json.str "s"), ("match", Json.arr []),
     ("filters", Json.arr []), ("actions", Json.arr [])] (by decide)).2.2.1

/-- C4: in every round of `PolicyRunner.run` the steps occur in the exact
order the spec prescribes: every node scenario engine in declared order, then
every pod scenario engine in declared order, then the sleep for the drawn
duration, then the inventory refresh — and the loop count is decremented
once per round, so a run bounded by `N` produces exactly the concatenation
of `N` such rounds before returning. -/
theorem C4_round_order (p : PolicyModel) (draws : ℕ → ℚ) (N : ℕ) :
    PolicyRunner_run p draws (some (N : ℤ)) (N + 1) =
      some (specTrace p draws N, p.nodeScenarios, p.podScenarios) := by
  rw [PolicyRunner_run, runFuel_bounded]
  simp [specTrace]

/-- C5: with a finite non-negative loop count `N`, `PolicyRunner.run`
terminates after executing exactly `N` rounds (one inventory sync per round)
and returns the pair of node and pod scenario engine lists; with `loops`
unset (`None`) the loop never terminates — no amount of fuel makes the run
return. -/
theorem C5_loop_termination (p : PolicyModel) (draws : ℕ → ℚ) (N : ℕ) :
    (PolicyRunner_run p draws (some (N : ℤ)) (N + 1) =
      some (specTrace p draws N, p.nodeScenarios, p.podScenarios) ∧
     (specTrace p draws N).countP isSyncEvent = N) ∧
    (∀ fuel : ℕ, PolicyRunner_run p draws none fuel = none) := by
  refine ⟨⟨?_, countP_isSync_specTrace p draws N⟩, fun fuel => ?_⟩
  · rw [PolicyRunner_run, runFuel_bounded]
    simp [specTrace]
  · rw [PolicyRunner_run, runFuel_unbounded]

/-- C9: the slept duration of every round is `int(random.uniform(...))`, the
truncation toward zero of that round's uniform draw (an integer number of
seconds by type); and whenever the effective `minSecondsBetweenRuns` is
non-negative, below `maxSecondsBetweenRuns`, and not an integer, some
admissible draw (the minimum itself) truncates to strictly less than
`minSecondsBetweenRuns`. -/
theorem C9_sleep_truncation :
    (∀ (p : PolicyModel) (draws : ℕ → ℚ) (N : ℕ),
      PolicyRunner_run p draws (some (N : ℤ)) (N + 1) =
        some (specTrace p draws N, p.nodeScenarios, p.podScenarios) ∧
      sleepSeconds (specTrace p draws N) =
        (List.range N).map fun i => pyInt (draws i)) ∧
    (∀ p : PolicyModel, 0 ≤ waitMin p → (∀ z : ℤ, waitMin p ≠ (z : ℚ)) →
      waitMin p ≤ waitMax p →
      ∃ d : ℚ, waitMin p ≤ d ∧ d ≤ waitMax p ∧ ((pyInt d : ℚ) < waitMin p)) := by
  constructor
  · intro p draws N
    refine ⟨?_, sleepSeconds_specTrace p draws N⟩
    rw [PolicyRunner_run, runFuel_bounded]
    simp [specTrace]
  · intro p hpos hnint hle
    refine ⟨waitMin p, le_refl _, hle, ?_⟩
    rw [pyInt, if_pos hpos]
    have hfle : ((⌊waitMin p⌋ : ℤ) : ℚ) ≤ waitMin p := Int.floor_le _
    have hfne : ((⌊waitMin p⌋ : ℤ) : ℚ) ≠ waitMin p :=
      fun hEq => hnint ⌊waitMin p⌋ hEq.symm
    exact lt_of_le_of_ne hfle hfne

/-- C9, witness: a policy with `minSecondsBetweenRuns = 1/2` and
`maxSecondsBetweenRuns = 1`. -/
theorem C9_witness :
    ∃ d : ℚ, waitMin ⟨some (1/2), some 1, [], []⟩ ≤ d ∧
      d ≤ waitMax ⟨some (1/2), some 1, [], []⟩ ∧
      ((pyInt d : ℚ) < waitMin ⟨some (1/2), some 1, [], []⟩) := by
  refine C9_sleep_truncation.2 ⟨some (1/2), some 1, [], []⟩ (by norm_num [waitMin])
    ?_ (by norm_num [waitMin, waitMax])
  intro z hz
  have hz' : ((1 : ℚ)/2) = (z : ℚ) := hz
  have hfl : (⌊(1 : ℚ)/2⌋ : ℤ) = z := by rw [hz']; exact Int.floor_intCast z
  have h0 : (⌊(1 : ℚ)/2⌋ : ℤ) = 0 := by norm_num
  rw [h0] at hfl
  rw [← hfl] at hz'
  norm_num at hz'

theorem dropWhile_eq_self_of_head {p : Char → Bool} {l : List Char}
    (h : ∀ c, l.head? = some c → p c = false) : l.dropWhile p = l := by
  cases l with
  | nil => rfl
  | cons c t =>
    rw [List.dropWhile_cons, h c rfl]
    simp

theorem pyRstrip_header (s : List Char) :
    pyRstrip ('[' :: s ++ [']']) = '[' :: s ++ [']'] := by
  have hws : Char.isWhitespace ']' = false := by decide
  rw [pyRstrip,
    show ('[' :: s ++ [']']).reverse = ']' :: (s.reverse ++ ['[']) from by simp,
    List.dropWhile_cons, hws]
  simp

theorem isHeaderLine_header (s : List Char) :
    isHeaderLine ('[' :: s ++ [']']) = true := by
  rw [isHeaderLine,
    show ('[' :: s ++ [']']).reverse = ']' :: (s.reverse ++ ['[']) from by simp]
  rfl

theorem dropWhile_char_header (s : List Char) (hs1 : s.head? ≠ some '[') :
    (s ++ [']']).dropWhile (· == '[') = s ++ [']'] := by
  cases s with
  | nil => decide
  | cons a t =>
    have ha : (a == '[') = false := by
      have hne : a ≠ '[' := fun hEq => hs1 (by rw [List.head?_cons, hEq])
      simpa using hne
    rw [show ((a :: t) ++ [']']) = a :: (t ++ [']']) from rfl,
      List.dropWhile_cons, ha]
    simp

theorem headerName_eq (s : List Char) (hs1 : s.head? ≠ some '[')
    (hs2 : s.getLast? ≠ some ']') :
    pyRstripBracket (pyLstripBracket ('[' :: s ++ [']'])) = s := by
  have h1 : pyLstripBracket ('[' :: s ++ [']']) = s ++ [']'] := by
    rw [pyLstripBracket, show ('[' :: s ++ [']']) = '[' :: (s ++ [']']) from rfl,
      List.dropWhile_cons]
    simp only [beq_self_eq_true, if_true]
    exact dropWhile_char_header s hs1
  have hhead : ∀ c, s.reverse.head? = some c → ((c == ']') : Bool) = false := by
    intro c hc
    rw [List.head?_reverse] at hc
    have hne : c ≠ ']' := fun hEq => hs2 (by rw [← hEq]; exact hc)
    simpa using hne
  have h2 : pyRstripBracket (s ++ [']']) = s := by
    rw [pyRstripBracket,
      show (s ++ [']']).reverse = ']' :: s.reverse from by simp,
      List.dropWhile_cons]
    simp only [beq_self_eq_true, if_true]
    rw [dropWhile_eq_self_of_head hhead, List.reverse_reverse]
  rw [h1, h2]

/-- C6: the inventory reader's own contract (and the claim) says the
returned keys are lowercase section names and first-level section inclusions
are resolved and flattened; the code does neither.  A `[Main]` header
produces the key `"Main"` unchanged, and an Ansible-style
`[all:children]` inclusion block is kept as a literal section whose lines
become ordinary `addr` records instead of being flattened into `all` (the
`configparser` object the function builds is never consulted). -/
theorem C6_code_behavior :
    read_inventory_file_to_dict ["[Main]".toList, "host1".toList] =
      .ok [("Main".toList, [[("addr".toList, "host1".toList)]])] ∧
    "Main".toList ≠ "main".toList ∧
    read_inventory_file_to_dict
        ["[all:children]".toList, "sub".toList, "[sub]".toList, "h1".toList] =
      .ok [("all:children".toList, [[("addr".toList, "sub".toList)]]),
           ("sub".toList, [[("addr".toList, "h1".toList)]])] ∧
    dictLookup "all".toList
        [("all:children".toList, [[("addr".toList, "sub".toList)]]),
         ("sub".toList, [[("addr".toList, "h1".toList)]])] = none := by
  exact ⟨rfl, by decide, rfl, rfl⟩

/-- C8: `read_inventory_file_to_dict` returns a mapping for every file in
which each record line follows some `[section]` header and every piece after
a record line's first piece has exactly one `=`; a record line before any
header raises (`KeyError` on the initial empty section name), and an
attribute piece without `=` raises (`ValueError` unpacking the split). -/
theorem C8_totality_boundary :
    (∀ lines : List (List Char), linesWellFormed lines false = true →
      ∃ g, read_inventory_file_to_dict lines = .ok g) ∧
    read_inventory_file_to_dict ["host1".toList] = .error (.keyError []) ∧
    read_inventory_file_to_dict ["[s]".toList, "host1 attr".toList] =
      .error (.valueError "attr".toList) := by
  refine ⟨?_, rfl, rfl⟩
  intro lines h
  obtain ⟨st', hst'⟩ := runLines_total lines [] [] false h
    (fun hc => absurd hc (by decide))
  exact ⟨st'.1, by rw [read_inventory_file_to_dict, hst']⟩

/-- C8, witness: a two-line file with one header and one attributed record
line is well-formed and parses. -/
theorem C8_witness :
    linesWellFormed ["[a]".toList, "h x=1".toList] false = true ∧
    ∃ g, read_inventory_file_to_dict ["[a]".toList, "h x=1".toList] = .ok g := by
  exact ⟨by decide,
    C8_totality_boundary.1 ["[a]".toList, "h x=1".toList] (by decide)⟩

/-- C10: re-opening a section header discards the records accumulated under
its earlier occurrence: whatever the prefix `pre` put into `_groups` (any
earlier `[s]` blocks included), after a final `[s]` header followed by
record lines `recs`, the returned mapping's entry for `s` holds exactly the
records of `recs`. -/
theorem C10_last_header_wins (pre recs : List (List Char)) (g : Groups)
    (sec s : List Char)
    (hpre : runLines pre ([], []) = .ok (g, sec))
    (hs1 : s.head? ≠ some '[') (hs2 : s.getLast? ≠ some ']')
    (hrecs : recs.all plainRecordLine = true) :
    ∃ g', read_inventory_file_to_dict (pre ++ ('[' :: s ++ [']']) :: recs) =
        .ok g' ∧
      dictLookup s g' = some (recs.map recordOfLine) := by
  have hstep : stepLine (g, sec) ('[' :: s ++ [']']) =
      .ok (dictInsert s [] g, s) := by
    rw [stepLine]
    simp only [pyRstrip_header, isHeaderLine_header, if_true,
      headerName_eq s hs1 hs2]
  obtain ⟨g', hrun, hlook⟩ := runLines_records recs (dictInsert s [] g) s []
    hrecs (dictLookup_dictInsert_self s [] g)
  refine ⟨g', ?_, by simpa using hlook⟩
  have hall : runLines (pre ++ ('[' :: s ++ [']']) :: recs) ([], []) =
      .ok (g', s) := by
    rw [runLines_append pre _ _ _ hpre, runLines, hstep]
    exact hrun
  rw [read_inventory_file_to_dict, hall]

/-- C10, witness: the file `[s] / a / [s] / b` keeps only the record `b`
under section `s`. -/
theorem C10_witness :
    ∃ g', read_inventory_file_to_dict
        (["[s]".toList, "a".toList] ++ ('[' :: "s".toList ++ [']']) ::
          ["b".toList]) = .ok g' ∧
      dictLookup "s".toList g' = some (["b".toList].map recordOfLine) := by
  exact C10_last_header_wins ["[s]".toList, "a".toList] ["b".toList]
    [("s".toList, [[("addr".toList, "a".toList)]])] "s".toList "s".toList
    rfl (by decide) (by decide) (by decide)

end PowerfulSeal
